import Mathlib

/-!
Verification of the barebox configuration tracker
(`sma_config_tracker.py`).

Strings of the Python program are modelled as `List Char`.  A Python
set of strings is modelled as a duplicate-free `List (List Char)` in
first-insertion order (Python set iteration order is unspecified; every
observable use of a set in the program goes through `sorted`, which
erases the internal order, so this is an observably faithful model).
A Python dict is modelled as an association list in insertion order,
with in-place overwrite on key collision, exactly as CPython dicts
behave.
-/

/-- Characters stripped by Python `str.strip()` (the ASCII / Latin-1
whitespace characters; the exotic Unicode space code points cannot occur
in the claims under study). -/
def isPyWs (c : Char) : Bool :=
  c = ' ' || c = '\t' || c = '\n' || c = '\r' || c = '\x0b' || c = '\x0c'

/-- Python `line.strip()`. -/
def pyStrip (l : List Char) : List Char :=
  ((l.dropWhile isPyWs).reverse.dropWhile isPyWs).reverse

/-- `stripPre p l` removes the leading occurrence of `p` from `l`,
returning `none` when `p` does not start `l`. -/
def stripPre : List Char → List Char → Option (List Char)
  | [], l => some l
  | _ :: _, [] => none
  | p :: ps, c :: cs => if p = c then stripPre ps cs else none

/-- Python `l.startswith(pat)`. -/
def isPre (pat l : List Char) : Bool := (stripPre pat l).isSome

/-- The character class `[A-Z_0-9]` of the option-name regex in
`parse_config_file` (line 46). -/
def isNameChar (c : Char) : Bool :=
  ('A' ≤ c && c ≤ 'Z') || ('0' ≤ c && c ≤ '9') || c = '_'

/-- The literal `CONFIG_` of the option-name regex. -/
def configTag : List Char := ['C', 'O', 'N', 'F', 'I', 'G', '_']

/-- The regex match `re.match(r'^(CONFIG_[A-Z_0-9]+)(?:=(.+))?$', line)`
of `parse_config_file` (line 46), returning the two capture groups.
`.` does not match a newline, hence the newline-freeness condition on
the value group; the value group `(.+)` must be non-empty, so a line
`CONFIG_X=` does not match at all. -/
def matchConfigLine (l : List Char) : Option (List Char × Option (List Char)) :=
  match stripPre configTag l with
  | none => none
  | some rest =>
    let run := rest.takeWhile isNameChar
    let after := rest.dropWhile isNameChar
    if run = [] then none
    else
      match after with
      | [] => some (configTag ++ run, none)
      | '=' :: vs =>
        if vs ≠ [] ∧ vs.all (fun c => c != '\n') then some (configTag ++ run, some vs)
        else none
      | _ => none

/-- One loop iteration of `parse_config_file` (lines 38-49): strip the
line, skip blank and comment lines, apply the regex; a bare option gets
the value `y`. Returns the dict entry the line contributes, if any. -/
def parseLine (raw : List Char) : Option (List Char × List Char) :=
  if pyStrip raw = [] then none
  else if (pyStrip raw).head? = some '#' then none
  else
    match matchConfigLine (pyStrip raw) with
    | some (n, some v) => some (n, v)
    | some (n, none) => some (n, ['y'])
    | none => none

/-- Membership of a key in a Python-dict model. -/
def hasKey {β : Type} (k : List Char) : List (List Char × β) → Bool
  | [] => false
  | p :: rest => p.1 = k || hasKey k rest

/-- `d[k] = v` on a Python-dict model: overwrite in place when the key
exists, append otherwise (CPython insertion-order semantics). -/
def dictInsert {β : Type} (m : List (List Char × β)) (k : List Char) (v : β) :
    List (List Char × β) :=
  if hasKey k m then m.map (fun p => if p.1 = k then (k, v) else p) else m ++ [(k, v)]

/-- `d[k]` on a Python-dict model (keys are unique, so first match). -/
def alookup {β : Type} (k : List Char) : List (List Char × β) → Option β
  | [] => none
  | p :: rest => if p.1 = k then some p.2 else alookup k rest

/-- `parse_config_file` (lines 35-52) on the list of lines of the file:
fold every line's contribution into the `config_options` dict. -/
def parseConfigLines (lines : List (List Char)) : List (List Char × List Char) :=
  lines.foldl (fun m raw =>
    match parseLine raw with
    | some kv => dictInsert m kv.1 kv.2
    | none => m) []

/-! ## The build-description scanner (`find_makefile_objects`, lines 54-94) -/

/-- Python `s.split(sep)` for a one-character separator. -/
def pySplitChar (sep : Char) (l : List Char) : List (List Char) :=
  l.foldr (fun c acc =>
    match acc with
    | [] => [[c]]
    | h :: t => if c = sep then [] :: h :: t else (c :: h) :: t) [[]]

/-- Python `line.split(':', 2)`: at most two splits, at the first two
colons. -/
def pySplitColon2 (l : List Char) : List (List Char) :=
  match l.dropWhile (fun c => c != ':') with
  | [] => [l]
  | _ :: r1 =>
    match r1.dropWhile (fun c => c != ':') with
    | [] => [l.takeWhile (fun c => c != ':'), r1]
    | _ :: r2 =>
      [l.takeWhile (fun c => c != ':'), r1.takeWhile (fun c => c != ':'), r2]

/-- Python `needle in hay` (substring containment). -/
def containsSub (needle : List Char) : List Char → Bool
  | [] => needle.isEmpty
  | c :: rest => isPre needle (c :: rest) || containsSub needle rest

/-- The character class of the artifact regex (line 79): ASCII letters, digits,
underscore, slash, hyphen. -/
def isObjChar (c : Char) : Bool :=
  ('a' ≤ c && c ≤ 'z') || ('A' ≤ c && c ≤ 'Z') || ('0' ≤ c && c ≤ '9') ||
    c = '_' || c = '/' || c = '-'

/-- The character class `[a-zA-Z0-9_-]` of the base-name regex
`([a-zA-Z0-9_-]+)\.o` of `makefile_analysis` (line 116): no slash. -/
def isObjBaseChar (c : Char) : Bool :=
  ('a' ≤ c && c ≤ 'z') || ('A' ≤ c && c ≤ 'Z') || ('0' ≤ c && c ≤ '9') ||
    c = '_' || c = '-'

/-- `re.findall` for the pattern `<good>+\.o`: left-to-right scan for
non-overlapping leftmost matches, each being a maximal run of `good`
characters followed by the literal `.o`.  `run` accumulates the current
run in reverse; each emitted element is the run (the group) in source
order, without the `.o` suffix. -/
def objScan (good : Char → Bool) : List Char → List Char → List (List Char)
  | [], _ => []
  | c :: rest, run =>
    if good c then objScan good rest (c :: run)
    else
      match c, rest, run with
      | '.', 'o' :: rest2, r0 :: rrun => (r0 :: rrun).reverse :: objScan good rest2 []
      | _, rest, _ => objScan good rest []

/-- The `re.findall` call of line 79 (class with slash): the whole
match including the suffix. -/
def findAllObj (l : List Char) : List (List Char) :=
  (objScan isObjChar l []).map (fun r => r ++ ['.', 'o'])

/-- `re.findall(r'([a-zA-Z0-9_-]+)\.o', line)` (line 116): only the
captured base names. -/
def findAllObjBase (l : List Char) : List (List Char) :=
  objScan isObjBaseChar l []

/-- `pathlib.PurePosixPath`: number of anchor slashes (0 = relative,
1 = absolute, 2 = the POSIX double-slash special case that pathlib
preserves) plus the non-empty, non-`.` components. -/
structure PurePath where
  slashes : Nat
  comps : List (List Char)
deriving DecidableEq, Repr

/-- pathlib's anchor rule: exactly two leading slashes are kept as `//`;
one, or three and more, collapse to `/`. -/
def leadSlashes (l : List Char) : Nat :=
  if isPre ['/', '/'] l ∧ ¬ isPre ['/', '/', '/'] l then 2
  else if isPre ['/'] l then 1
  else 0

/-- `pathlib.PurePosixPath(s)`: empty and `.` components are dropped. -/
def parsePath (l : List Char) : PurePath :=
  ⟨leadSlashes l, (pySplitChar '/' l).filter (fun c => c ≠ [] && c ≠ ['.'])⟩

/-- `Path(p).parent`. -/
def PurePath.parent (p : PurePath) : PurePath := ⟨p.slashes, p.comps.dropLast⟩

/-- `Path('.')`. -/
def pathDot : PurePath := ⟨0, []⟩

/-- `'/'.join(comps)`. -/
def joinComps : List (List Char) → List Char
  | [] => []
  | [a] => a
  | a :: b :: t => a ++ '/' :: joinComps (b :: t)

/-- `str(p)` for a `PurePosixPath`. -/
def PurePath.str (p : PurePath) : List Char :=
  (List.replicate p.slashes '/') ++
    (if p.comps = [] ∧ p.slashes = 0 then ['.'] else joinComps p.comps)

/-- `p / s` on pure POSIX paths: a second operand with an anchor
replaces the path entirely. -/
def PurePath.join (p : PurePath) (s : List Char) : PurePath :=
  if (parsePath s).slashes > 0 then parsePath s
  else ⟨p.slashes, p.comps ++ (parsePath s).comps⟩

/-- Outcome of one `subprocess.run` search invocation.  `fail` models
every exception the program catches around such a call
(`FileNotFoundError` when the tool is absent, `TimeoutExpired`,
`CalledProcessError`, `OSError`); `success rc out` is a completed
process with return code `rc` and standard output `out`. -/
inductive GrepOutcome where
  | fail : GrepOutcome
  | success : Int → List Char → GrepOutcome
deriving DecidableEq

/-- `files.add(x)` on the Python-set model: append if absent.  Python
set iteration order is unspecified; every observable use goes through
`sorted`, for which any duplicate-free order is equivalent. -/
def setInsert (l : List (List Char)) (x : List Char) : List (List Char) :=
  if x ∈ l then l else l ++ [x]

/-- The body of the stdout loop of `find_makefile_objects`
(lines 68-89): parse `filename:line:content`, keep the match only when
the file path contains `Makefile` or `makefile`, extract the artifact
references, and reconcile each against the Makefile's directory. -/
def processGrepLine (files : List (List Char)) (line : List Char) : List (List Char) :=
  if line ≠ [] ∧ ':' ∈ line then
    match pySplitColon2 line with
    | [mpath, _num, content] =>
      if containsSub ("Makefile".toList) mpath || containsSub ("makefile".toList) mpath then
        (findAllObj content).foldl (fun fs obj =>
          if (parsePath mpath).parent = pathDot then setInsert fs obj
          else setInsert fs (((parsePath mpath).parent.join obj).str)) files
      else files
    | _ => files
  else files

/-- `find_makefile_objects` (lines 54-94) applied to the outcome of its
`git grep` invocation: empty set on any caught exception or non-zero
return code, otherwise the fold of `processGrepLine` over the stdout
lines. -/
def grepResultFiles (g : GrepOutcome) : List (List Char) :=
  match g with
  | .fail => []
  | .success rc stdout =>
    if rc = 0 then (pySplitChar '\n' stdout).foldl processGrepLine [] else []

/-- The concrete pattern `f'obj-.*{config_option}'` handed to
`git grep` (line 62). -/
def makefilePattern (opt : List Char) : List Char := ("obj-.*".toList) ++ opt

/-- `find_makefile_objects(config_option)` against a search world
mapping each pattern to its invocation outcome. -/
def find_makefile_objects (opt : List Char) (world : List Char → GrepOutcome) :
    List (List Char) :=
  grepResultFiles (world (makefilePattern opt))

/-- The warning print of the `except` clause (line 92) is reached
exactly when the invocation raised. -/
def searchWarned : GrepOutcome → Bool
  | .fail => true
  | .success _ _ => false

/-- Modelled from the spec sentence of claim C5: the invoking file is
itself named, case-insensitively, a build-description file — its final
path component, lowercased, is exactly `makefile`.  Stated only to
compare the specification's wording with the code's substring test. -/
def specFileNamedMakefile (p : List Char) : Bool :=
  ((parsePath p).comps.getLast?).map (fun n => n.map Char.toLower) = some ("makefile".toList)

/-- An artifact reference in normalized relative form: no anchor, and
its components reassemble to the reference itself (no empty or `.`
segments). -/
def normalRelPath (o : List Char) : Prop :=
  (parsePath o).slashes = 0 ∧ (parsePath o).comps ≠ [] ∧ joinComps (parsePath o).comps = o

instance (o : List Char) : Decidable (normalRelPath o) := by
  unfold normalRelPath
  infer_instance

/-! ## Aggregation (`analyze_configuration`), report (`export_to_csv`),
and the auxiliary scanners (`kconfig_analysis`, `makefile_analysis`) -/

/-- Python string `<=` (code-point lexicographic), the order used by
`sorted` on lists of strings. -/
def lexLe : List Char → List Char → Bool
  | [], _ => true
  | _ :: _, [] => false
  | a :: as, b :: bs => if a < b then true else if b < a then false else lexLe as bs

/-- Python `sorted` on a list of distinct strings. -/
def pySorted (l : List (List Char)) : List (List Char) :=
  List.insertionSort (fun a b => lexLe a b = true) l

/-- The per-option record dict of `analyze_configuration`
(lines 215-219). -/
structure AssocRecord where
  value : List Char
  files : List (List Char)
  tracked : Bool
deriving DecidableEq, Repr

/-- `analyze_configuration` (lines 199-224) on an already-parsed
snapshot: for every option, in snapshot order, one scan through
`find_makefile_objects`; the record holds the snapshot value, the
sorted artifact list, and `tracked = False`. -/
def analyze_configuration (snapshot : List (List Char × List Char))
    (world : List Char → GrepOutcome) : List (List Char × AssocRecord) :=
  snapshot.foldl (fun results p =>
    dictInsert results p.1
      ⟨p.2, pySorted (find_makefile_objects p.1 world), false⟩) []

/-- The cell separator `'; '` of `export_to_csv` (line 241). -/
def sepSC : List Char := [';', ' ']

/-- `'; '.join(files)`. -/
def joinSep : List (List Char) → List Char
  | [] => []
  | [a] => a
  | a :: b :: t => a ++ ';' :: ' ' :: joinSep (b :: t)

/-- The rows written by `export_to_csv` (lines 226-245): the header,
then one row per option in `sorted(results.items())` order (keys are
unique in a dict, so only the option-name component is ever compared);
each row is `NO`, the option, and the joined artifact cell (empty
string when there are no artifacts). -/
def export_to_csv (results : List (List Char × AssocRecord)) : List (List (List Char)) :=
  [("Track Status".toList), ("CONFIG_OPTION".toList), ("Object Files".toList)] ::
    (List.insertionSort (fun a b => lexLe a.1 b.1 = true) results).map
      (fun p => [("NO".toList), p.1,
        if p.2.files ≠ [] then joinSep p.2.files else []])

/-- Python `s.split(sep)` for a non-empty `sep`: a left-to-right scan;
`skip` counts separator characters still to be consumed after a match,
`cur` holds the current piece in reverse. -/
def splitStrGo (sep : List Char) : List Char → Nat → List Char → List (List Char)
  | [], _, cur => [cur.reverse]
  | _ :: rest, n + 1, cur => splitStrGo sep rest n cur
  | c :: rest, 0, cur =>
    if isPre sep (c :: rest) then cur.reverse :: splitStrGo sep rest (sep.length - 1) []
    else splitStrGo sep rest 0 (c :: cur)

/-- Python `s.split(sep)` (Python raises on an empty separator; the
program only splits on `'; '` and `'\n'`). -/
def pySplitStr (sep l : List Char) : List (List Char) :=
  if sep = [] then [l] else splitStrGo sep l 0 []

/-- Python `s.replace(needle, '')` for a non-empty needle, which equals
`''.join(s.split(needle))`: every non-overlapping occurrence is
removed, leftmost first. -/
def pyReplaceDel (needle s : List Char) : List Char :=
  (pySplitStr needle s).foldr (fun a b => a ++ b) []

/-- The four search patterns of `kconfig_analysis` (lines 137-142).
`base_option = config_option.replace('CONFIG_', '')` (line 131) removes
every occurrence of `CONFIG_`, not only a leading one. -/
def kconfigPatterns (opt : List Char) : List (List Char) :=
  [("config ".toList) ++ pyReplaceDel ("CONFIG_".toList) opt,
   ("select ".toList) ++ pyReplaceDel ("CONFIG_".toList) opt,
   ("depends on ".toList) ++ opt,
   opt]

/-- Modelled from the spec sentence of claim C8: the base name is the
option name with its required prefix stripped (one leading `CONFIG_`
removed).  Stated only to compare the specification's wording with the
code's `replace`-based base name. -/
def specDeclPatterns (opt : List Char) : List (List Char) :=
  [("config ".toList) ++ (stripPre ("CONFIG_".toList) opt).getD opt,
   ("select ".toList) ++ (stripPre ("CONFIG_".toList) opt).getD opt,
   ("depends on ".toList) ++ opt,
   opt]

/-- `file.lstrip('./')` (lines 110, 150): remove every leading `.` or
`/` character. -/
def pyLStripDotSlash (l : List Char) : List Char :=
  l.dropWhile (fun c => c = '.' || c = '/')

/-- The stdout loop of one `kconfig_analysis` pattern (lines 147-150):
`result.stdout.strip().split('\n')`, skip empty lines and lines
starting with `.git`, record the lstripped path. -/
def kconfigCollect (acc : List (List Char)) (stdout : List Char) : List (List Char) :=
  (pySplitChar '\n' (pyStrip stdout)).foldl (fun fs file =>
    if file ≠ [] ∧ isPre (".git".toList) file = false then
      setInsert fs (pyLStripDotSlash file)
    else fs) acc

/-- The pattern loop of `kconfig_analysis` (lines 144-150): an
exception (`CalledProcessError`, `TimeoutExpired`) aborts the loop and
the accumulated set is returned by the `except` handler; a non-zero
return code only skips that pattern. -/
def kconfigLoop (penv : List Char → GrepOutcome) :
    List (List Char) → List (List Char) → List (List Char)
  | [], acc => acc
  | p :: ps, acc =>
    match penv p with
    | .fail => acc
    | .success rc stdout =>
      if rc = 0 then kconfigLoop penv ps (kconfigCollect acc stdout)
      else kconfigLoop penv ps acc

/-- `kconfig_analysis` (lines 128-155) against a search world mapping
each `find . -name Kconfig* -exec grep -l <pattern>` invocation to its
outcome. -/
def kconfig_analysis (opt : List Char) (penv : List Char → GrepOutcome) :
    List (List Char) :=
  kconfigLoop penv (kconfigPatterns opt) []

/-- `makefile_analysis` (lines 96-126) against the outcome of its
`find . -name Makefile -exec grep -H` invocation and a filesystem
oracle for `Path(...).exists()`.  Each matched `path:content` line
contributes its lstripped Makefile path unconditionally, and for every
base name matched by the pattern of line 116 the sibling `.c` path
exactly when the oracle says it exists. -/
def makefileLineStep (fsExists : List Char → Bool) (files : List (List Char))
    (line : List Char) : List (List Char) :=
  if line ≠ [] ∧ ':' ∈ line then
    (findAllObjBase ((line.dropWhile (fun c => c != ':')).tail)).foldl
      (fun fs base =>
        if fsExists (((parsePath (pyLStripDotSlash
              (line.takeWhile (fun c => c != ':')))).parent.join
            (base ++ (".c".toList))).str) then
          setInsert fs (((parsePath (pyLStripDotSlash
              (line.takeWhile (fun c => c != ':')))).parent.join
            (base ++ (".c".toList))).str)
        else fs)
      (setInsert files (pyLStripDotSlash (line.takeWhile (fun c => c != ':'))))
  else files

def makefile_analysis (out : GrepOutcome) (fsExists : List Char → Bool) :
    List (List Char) :=
  match out with
  | .fail => []
  | .success rc stdout =>
    if rc = 0 then (pySplitChar '\n' stdout).foldl (makefileLineStep fsExists) []
    else []

theorem takeWhile_append_not (p : Char → Bool) (s : List Char) (x : Char) (r : List Char)
    (hs : ∀ c ∈ s, p c = true) (hx : p x = false) :
    (s ++ x :: r).takeWhile p = s ∧ (s ++ x :: r).dropWhile p = x :: r := by
  induction s with
  | nil => simp [List.takeWhile_cons, List.dropWhile_cons, hx]
  | cons a as ih =>
    have ha : p a = true := hs a (by simp)
    have := ih (fun c hc => hs c (by simp [hc]))
    simp [List.takeWhile_cons, List.dropWhile_cons, ha, this.1, this.2]

theorem takeWhile_all (p : Char → Bool) (s : List Char) (hs : ∀ c ∈ s, p c = true) :
    s.takeWhile p = s ∧ s.dropWhile p = [] := by
  induction s with
  | nil => simp
  | cons a as ih =>
    have ha : p a = true := hs a (by simp)
    have := ih (fun c hc => hs c (by simp [hc]))
    simp [List.takeWhile_cons, List.dropWhile_cons, ha, this.1, this.2]

theorem dropWhile_eq_self_of_head (p : Char → Bool) (l : List Char)
    (h : ∀ c, l.head? = some c → p c = false) : l.dropWhile p = l := by
  cases l with
  | nil => rfl
  | cons a as => simp [List.dropWhile_cons, h a rfl]

theorem pyStrip_eq_self (l : List Char)
    (h1 : ∀ c, l.head? = some c → isPyWs c = false)
    (h2 : ∀ c, l.getLast? = some c → isPyWs c = false) : pyStrip l = l := by
  unfold pyStrip
  rw [dropWhile_eq_self_of_head _ _ h1]
  rw [dropWhile_eq_self_of_head _ _ (by simpa [List.head?_reverse] using h2)]
  exact List.reverse_reverse l

theorem stripPre_append (p r : List Char) : stripPre p (p ++ r) = some r := by
  induction p with
  | nil => rfl
  | cons a as ih => simp [stripPre, ih]

theorem mem_of_getLast (l : List Char) (c : Char) (h : l.getLast? = some c) : c ∈ l := by
  induction l with
  | nil => simp at h
  | cons a rest ih =>
    rw [List.getLast?_cons] at h
    cases hr : rest.getLast? with
    | none =>
      rw [hr] at h
      simp only [Option.getD_none, Option.some.injEq] at h
      simp [h]
    | some c0 =>
      rw [hr] at h
      simp only [Option.getD_some, Option.some.injEq] at h
      subst h
      simp [ih hr]

theorem nameChar_not_ws (c : Char) (h : isNameChar c = true) : isPyWs c = false := by
  by_contra hw
  have hw2 : isPyWs c = true := by
    cases hq : isPyWs c
    · exact absurd hq hw
    · rfl
  simp only [isPyWs, Bool.or_eq_true, decide_eq_true_eq] at hw2
  rcases hw2 with ((((h1 | h1) | h1) | h1) | h1) | h1 <;>
    subst h1 <;> simp [isNameChar] at h

theorem matchConfigLine_eq_val (s v : List Char) (hs : s ≠ [])
    (hname : ∀ c ∈ s, isNameChar c = true)
    (hv : v ≠ []) (hvn : ∀ c ∈ v, c ≠ '\n') :
    matchConfigLine (configTag ++ s ++ '=' :: v) = some (configTag ++ s, some v) := by
  have hsplit := takeWhile_append_not isNameChar s '=' v hname (by decide)
  have hall : v.all (fun c => c != '\n') = true := by
    simp only [List.all_eq_true, bne_iff_ne]
    exact hvn
  simp [matchConfigLine, List.append_assoc, stripPre_append, hsplit.1, hsplit.2, hs, hv, hall]

theorem matchConfigLine_eq_bare (s : List Char) (hs : s ≠ [])
    (hname : ∀ c ∈ s, isNameChar c = true) :
    matchConfigLine (configTag ++ s) = some (configTag ++ s, none) := by
  have hsplit := takeWhile_all isNameChar s hname
  simp [matchConfigLine, stripPre_append, hsplit.1, hsplit.2, hs]

theorem matchConfigLine_eq_emptyval (s : List Char) (hs : s ≠ [])
    (hname : ∀ c ∈ s, isNameChar c = true) :
    matchConfigLine (configTag ++ s ++ ['=']) = none := by
  have hsplit := takeWhile_append_not isNameChar s '=' [] hname (by decide)
  simp [matchConfigLine, List.append_assoc, stripPre_append, hsplit.1, hsplit.2, hs]

theorem configTag_line_strip (t : List Char)
    (h2 : ∀ c, (configTag ++ t).getLast? = some c → isPyWs c = false) :
    pyStrip (configTag ++ t) = configTag ++ t := by
  refine pyStrip_eq_self _ ?_ h2
  intro c hc
  simp only [configTag, List.cons_append, List.head?_cons, Option.some.injEq] at hc
  subst hc; rfl

theorem alookup_mapUpdate {β : Type} (m : List (List Char × β)) (k : List Char) (v : β)
    (h : hasKey k m = true) :
    alookup k (m.map fun p => if p.1 = k then (k, v) else p) = some v := by
  induction m with
  | nil => simp [hasKey] at h
  | cons p rest ih =>
    by_cases hp : p.1 = k
    · simp [alookup, hp]
    · have hr : hasKey k rest = true := by
        simp only [hasKey, Bool.or_eq_true, decide_eq_true_eq] at h
        exact h.resolve_left hp
      simp [alookup, hp, ih hr]

theorem alookup_append_right {β : Type} (m m2 : List (List Char × β)) (k : List Char)
    (h : hasKey k m = false) : alookup k (m ++ m2) = alookup k m2 := by
  induction m with
  | nil => rfl
  | cons p rest ih =>
    simp only [hasKey, Bool.or_eq_false_iff, decide_eq_false_iff_not] at h
    simp [alookup, h.1, ih h.2]

theorem alookup_dictInsert_self {β : Type} (m : List (List Char × β)) (k : List Char) (v : β) :
    alookup k (dictInsert m k v) = some v := by
  unfold dictInsert
  by_cases h : hasKey k m = true
  · simp [h, alookup_mapUpdate m k v h]
  · have h2 : hasKey k m = false := by
      cases hq : hasKey k m
      · rfl
      · exact absurd hq h
    simp [h2, alookup_append_right m [(k, v)] k h2, alookup]

theorem alookup_map_ne {β : Type} (m : List (List Char × β)) (k q : List Char) (v : β)
    (h : q ≠ k) :
    alookup q (m.map fun p => if p.1 = k then (k, v) else p) = alookup q m := by
  induction m with
  | nil => rfl
  | cons p rest ih =>
    by_cases hp : p.1 = k
    · have h1 : ¬ (k = q) := fun hh => h hh.symm
      have h2 : ¬ (p.1 = q) := by rw [hp]; exact h1
      rw [List.map_cons, if_pos hp]
      simp only [alookup]
      rw [if_neg h1, if_neg h2, ih]
    · rw [List.map_cons, if_neg hp]
      simp only [alookup]
      rw [ih]

theorem alookup_append_ne {β : Type} (m : List (List Char × β)) (k q : List Char) (v : β)
    (h : q ≠ k) : alookup q (m ++ [(k, v)]) = alookup q m := by
  induction m with
  | nil =>
    have : ¬ (k = q) := fun hh => h hh.symm
    simp [alookup, this]
  | cons p rest ih =>
    by_cases hp : p.1 = q <;> simp [alookup, hp, ih]

theorem alookup_dictInsert_ne {β : Type} (m : List (List Char × β)) (k q : List Char) (v : β)
    (h : q ≠ k) : alookup q (dictInsert m k v) = alookup q m := by
  unfold dictInsert
  by_cases hk : hasKey k m = true
  · simp only [hk, if_true]
    exact alookup_map_ne m k q v h
  · simp only [hk, if_false]
    exact alookup_append_ne m k q v h

theorem lookup_fold_insert (entries : List (List Char × List Char))
    (m : List (List Char × List Char)) (k : List Char) :
    alookup k (entries.foldl (fun m kv => dictInsert m kv.1 kv.2) m) =
      (((entries.filter fun p => p.1 = k).getLast?).map Prod.snd).or (alookup k m) := by
  induction entries using List.reverseRecOn generalizing m with
  | nil => simp
  | append_singleton xs kv ih =>
    rw [List.foldl_append, List.foldl_cons, List.foldl_nil, List.filter_append]
    by_cases hk : kv.1 = k
    · rw [hk, alookup_dictInsert_self]
      have hf : List.filter (fun p => decide (p.1 = k)) [kv] = [kv] := by
        simp [List.filter_cons, hk]
      rw [hf, List.getLast?_concat]
      simp
    · rw [alookup_dictInsert_ne _ _ _ _ (fun hh => hk hh.symm)]
      have hf : List.filter (fun p => decide (p.1 = k)) [kv] = [] := by
        simp [List.filter_cons, hk]
      rw [hf, List.append_nil, ih]

theorem parseConfigLines_eq_fold (lines : List (List Char)) :
    parseConfigLines lines =
      (lines.filterMap parseLine).foldl (fun m kv => dictInsert m kv.1 kv.2) [] := by
  unfold parseConfigLines
  generalize ([] : List (List Char × List Char)) = m
  induction lines generalizing m with
  | nil => rfl
  | cons raw rest ih =>
    cases h : parseLine raw <;> simp [List.filterMap_cons, h, ih]

theorem lookup_parse_eq_last (lines : List (List Char)) (k : List Char) :
    alookup k (parseConfigLines lines) =
      (((lines.filterMap parseLine).filter fun p => p.1 = k).getLast?).map Prod.snd := by
  rw [parseConfigLines_eq_fold, lookup_fold_insert]
  simp [alookup]

/-- Claim C1: a stripped line `CONFIG_NAME=VALUE` (name in `[A-Z_0-9]+`,
value non-empty) contributes the entry mapping the option to the value,
and the resulting snapshot maps the option to the value; a bare
`CONFIG_NAME` line yields the value `y`. -/
theorem parse_valid_line_yields_entry (s v : List Char)
    (hs : s ≠ []) (hname : ∀ c ∈ s, isNameChar c = true)
    (hv : v ≠ []) (hvn : ∀ c ∈ v, c ≠ '\n')
    (hlast : isPyWs (v.getLastD '=') = false) :
    parseLine (configTag ++ s ++ '=' :: v) = some (configTag ++ s, v) ∧
    alookup (configTag ++ s) (parseConfigLines [configTag ++ s ++ '=' :: v]) = some v ∧
    parseLine (configTag ++ s) = some (configTag ++ s, ['y']) ∧
    alookup (configTag ++ s) (parseConfigLines [configTag ++ s]) = some ['y'] := by
  have hstrip1 : pyStrip (configTag ++ s ++ '=' :: v) = configTag ++ s ++ '=' :: v := by
    rw [List.append_assoc]
    refine configTag_line_strip _ ?_
    intro c hc
    rw [List.getLast?_append, List.getLast?_append, List.getLast?_cons, Option.or_some,
      Option.or_some] at hc
    have hcc : c = (v.getLast?).getD '=' := by simpa using hc.symm
    rw [hcc, ← List.getLastD_eq_getLast?]
    exact hlast
  have hstrip2 : pyStrip (configTag ++ s) = configTag ++ s := by
    refine configTag_line_strip _ ?_
    intro c hc
    rw [List.getLast?_append] at hc
    cases hls : s.getLast? with
    | none => exact absurd (List.getLast?_eq_none_iff.mp hls) hs
    | some c0 =>
      rw [hls, Option.or_some] at hc
      have hcc : c0 = c := by simpa using hc
      subst hcc
      exact nameChar_not_ws c0 (hname c0 (mem_of_getLast s c0 hls))
  have hne1 : configTag ++ s ++ '=' :: v ≠ [] := by simp [configTag]
  have hne2 : configTag ++ s ≠ [] := by simp [configTag]
  have hh1 : (configTag ++ s ++ '=' :: v).head? = some 'C' := by simp [configTag]
  have hh2 : (configTag ++ s).head? = some 'C' := by simp [configTag]
  have hm1 := matchConfigLine_eq_val s v hs hname hv hvn
  have hm2 := matchConfigLine_eq_bare s hs hname
  have hp1 : parseLine (configTag ++ s ++ '=' :: v) = some (configTag ++ s, v) := by
    unfold parseLine
    rw [hstrip1, if_neg hne1, if_neg (by rw [hh1]; decide), hm1]
  have hp2 : parseLine (configTag ++ s) = some (configTag ++ s, ['y']) := by
    unfold parseLine
    rw [hstrip2, if_neg hne2, if_neg (by rw [hh2]; decide), hm2]
  refine ⟨hp1, ?_, hp2, ?_⟩
  · have hsn : parseConfigLines [configTag ++ s ++ '=' :: v] = [(configTag ++ s, v)] := by
      unfold parseConfigLines
      simp only [List.foldl_cons, List.foldl_nil]
      rw [hp1]
      simp [dictInsert, hasKey]
    rw [hsn]
    simp [alookup]
  · have hsn : parseConfigLines [configTag ++ s] = [(configTag ++ s, ['y'])] := by
      unfold parseConfigLines
      simp only [List.foldl_cons, List.foldl_nil]
      rw [hp2]
      simp [dictInsert, hasKey]
    rw [hsn]
    simp [alookup]

/-- Witness for C1 at the concrete lines `CONFIG_FOO=bar` and
`CONFIG_FOO`. -/
theorem parse_valid_line_yields_entry_witness :
    parseLine (configTag ++ ("FOO".toList) ++ '=' :: ("bar".toList)) =
        some (configTag ++ ("FOO".toList), ("bar".toList)) ∧
    alookup (configTag ++ ("FOO".toList))
        (parseConfigLines [configTag ++ ("FOO".toList) ++ '=' :: ("bar".toList)]) =
      some ("bar".toList) ∧
    parseLine (configTag ++ ("FOO".toList)) = some (configTag ++ ("FOO".toList), ['y']) ∧
    alookup (configTag ++ ("FOO".toList)) (parseConfigLines [configTag ++ ("FOO".toList)]) =
      some ['y'] :=
  parse_valid_line_yields_entry ("FOO".toList) ("bar".toList)
    (by decide) (by decide) (by decide) (by decide) (by decide)

/-- Claim C7: parsing is deterministic (the same contents always yield
the same snapshot), and the snapshot maps every option to the value
contributed by the last line that parses to that option

(last-write-wins). -/
theorem parse_deterministic_last_write_wins (lines : List (List Char)) (k : List Char) :
    parseConfigLines lines = parseConfigLines lines ∧
    alookup k (parseConfigLines lines) =
      (((lines.filterMap parseLine).filter fun p => p.1 = k).getLast?).map Prod.snd :=
  ⟨rfl, lookup_parse_eq_last lines k⟩

/-- Claim C10: a line `CONFIG_NAME=` with an empty value matches neither
regex alternative, is silently skipped, and contributes no snapshot
entry at all. -/
theorem parse_empty_value_line_skipped (s : List Char) (hs : s ≠ [])
    (hname : ∀ c ∈ s, isNameChar c = true) (pre post : List (List Char)) :
    parseLine (configTag ++ s ++ ['=']) = none ∧
    parseConfigLines (pre ++ [configTag ++ s ++ ['=']] ++ post) = parseConfigLines (pre ++ post) ∧
    alookup (configTag ++ s) (parseConfigLines [configTag ++ s ++ ['=']]) = none := by
  have hstrip : pyStrip (configTag ++ s ++ ['=']) = configTag ++ s ++ ['='] := by
    rw [List.append_assoc]
    refine configTag_line_strip _ ?_
    intro c hc
    rw [List.getLast?_append, List.getLast?_append, List.getLast?_singleton, Option.or_some,
      Option.or_some] at hc
    have hcc : c = '=' := by simpa using hc.symm
    rw [hcc]; rfl
  have hne : configTag ++ s ++ ['='] ≠ [] := by simp [configTag]
  have hh : (configTag ++ s ++ ['=']).head? = some 'C' := by simp [configTag]
  have hm := matchConfigLine_eq_emptyval s hs hname
  have hp : parseLine (configTag ++ s ++ ['=']) = none := by
    unfold parseLine
    rw [hstrip, if_neg hne, if_neg (by rw [hh]; decide), hm]
  refine ⟨hp, ?_, ?_⟩
  · unfold parseConfigLines
    simp only [List.foldl_append, List.foldl_cons, List.foldl_nil]
    rw [hp]
  · have hsn : parseConfigLines [configTag ++ s ++ ['=']] = [] := by
      unfold parseConfigLines
      simp only [List.foldl_cons, List.foldl_nil]
      rw [hp]
    rw [hsn]
    rfl

/-- Witness for C10 at the concrete line `CONFIG_FOO=`. -/
theorem parse_empty_value_line_skipped_witness :
    parseLine (configTag ++ ("FOO".toList) ++ ['=']) = none ∧
    parseConfigLines ([("CONFIG_A=1".toList)] ++ [configTag ++ ("FOO".toList) ++ ['=']] ++ []) =
      parseConfigLines ([("CONFIG_A=1".toList)] ++ []) ∧
    alookup (configTag ++ ("FOO".toList))
      (parseConfigLines [configTag ++ ("FOO".toList) ++ ['=']]) = none :=
  parse_empty_value_line_skipped ("FOO".toList) (by decide) (by decide)
    [("CONFIG_A=1".toList)] []

theorem pySplitChar_cons (sep c : Char) (l : List Char) :
    pySplitChar sep (c :: l) =
      match pySplitChar sep l with
      | [] => [[c]]
      | h :: t => if c = sep then [] :: h :: t else (c :: h) :: t := rfl

theorem pySplitChar_ne_nil (sep : Char) (l : List Char) : pySplitChar sep l ≠ [] := by
  induction l with
  | nil => simp [pySplitChar]
  | cons c rest ih =>
    rw [pySplitChar_cons]
    cases h : pySplitChar sep rest with
    | nil => exact absurd h ih
    | cons h0 t =>
      by_cases hc : c = sep <;> simp [hc]

theorem pySplitChar_no_sep (sep : Char) (l : List Char) (h : sep ∉ l) :
    pySplitChar sep l = [l] := by
  induction l with
  | nil => rfl
  | cons c rest ih =>
    have hc : c ≠ sep := fun hh => h (hh ▸ List.mem_cons_self c rest)
    have hr : sep ∉ rest := fun hh => h (List.mem_cons_of_mem c hh)
    rw [pySplitChar_cons, ih hr]
    simp [hc]

theorem pySplitChar_sep_split (sep : Char) (x y : List Char) (hx : sep ∉ x) :
    pySplitChar sep (x ++ sep :: y) = x :: pySplitChar sep y := by
  induction x with
  | nil =>
    rw [List.nil_append, pySplitChar_cons]
    cases h : pySplitChar sep y with
    | nil => exact absurd h (pySplitChar_ne_nil sep y)
    | cons h0 t => simp
  | cons c x2 ih =>
    have hc : c ≠ sep := fun hh => hx (hh ▸ List.mem_cons_self c x2)
    have hx2 : sep ∉ x2 := fun hh => hx (List.mem_cons_of_mem c hh)
    rw [List.cons_append, pySplitChar_cons, ih hx2]
    simp [hc]

theorem isPre_self (p : List Char) : isPre p p = true := by
  have h := stripPre_append p []
  rw [List.append_nil] at h
  rw [isPre, h]
  rfl

theorem containsSub_append_self (n x : List Char) : containsSub n (x ++ n) = true := by
  induction x with
  | nil =>
    cases n with
    | nil => rfl
    | cons c r =>
      rw [List.nil_append]
      unfold containsSub
      rw [isPre_self]
      rfl
  | cons c x2 ih =>
    rw [List.cons_append]
    unfold containsSub
    rw [ih]
    simp

theorem mem_setInsert (fs : List (List Char)) (y x : List Char) :
    x ∈ setInsert fs y ↔ x ∈ fs ∨ x = y := by
  unfold setInsert
  by_cases h : y ∈ fs
  · rw [if_pos h]
    constructor
    · exact Or.inl
    · rintro (hx | hx)
      · exact hx
      · exact hx ▸ h
  · rw [if_neg h]
    simp [List.mem_append]

theorem mem_foldl_setInsert (f : List Char → List Char) (objs : List (List Char))
    (init : List (List Char)) (x : List Char) :
    x ∈ objs.foldl (fun fs o => setInsert fs (f o)) init ↔
      x ∈ init ∨ ∃ o ∈ objs, f o = x := by
  induction objs generalizing init with
  | nil => simp
  | cons o rest ih =>
    rw [List.foldl_cons, ih, mem_setInsert]
    constructor
    · rintro ((hx | hx) | ⟨o2, ho2, hx⟩)
      · exact Or.inl hx
      · exact Or.inr ⟨o, List.mem_cons_self o rest, hx.symm⟩
      · exact Or.inr ⟨o2, List.mem_cons_of_mem o ho2, hx⟩
    · rintro (hx | ⟨o2, ho2, hx⟩)
      · exact Or.inl (Or.inl hx)
      · rcases List.mem_cons.mp ho2 with h2 | h2
        · exact Or.inl (Or.inr (h2 ▸ hx).symm)
        · exact Or.inr ⟨o2, h2, hx⟩

theorem bne_colon_of_ne (l : List Char) (h : ':' ∉ l) : ∀ x ∈ l, (x != ':') = true := by
  intro x hx
  simp only [bne_iff_ne]
  intro he
  exact h (he ▸ hx)

theorem pySplitColon2_parts (path num c : List Char) (h1 : ':' ∉ path) (h2 : ':' ∉ num) :
    pySplitColon2 (path ++ ':' :: (num ++ ':' :: c)) = [path, num, c] := by
  have hx : (((':' : Char)) != ':') = false := by decide
  have s1 := takeWhile_append_not (fun c => c != ':') path ':' (num ++ ':' :: c)
    (bne_colon_of_ne path h1) hx
  have s2 := takeWhile_append_not (fun c => c != ':') num ':' c (bne_colon_of_ne num h2) hx
  unfold pySplitColon2
  simp only [s1.1, s1.2]
  simp only [s2.1, s2.2]

theorem pySplitColon2_two_or_three (p rest : List Char) (hp : ':' ∉ p) :
    pySplitColon2 (p ++ ':' :: rest) = [p, rest] ∨
      ∃ b r2, pySplitColon2 (p ++ ':' :: rest) = [p, b, r2] := by
  have hx : (((':' : Char)) != ':') = false := by decide
  have s1 := takeWhile_append_not (fun c => c != ':') p ':' rest (bne_colon_of_ne p hp) hx
  unfold pySplitColon2
  simp only [s1.1, s1.2]
  cases hdrop : rest.dropWhile (fun c => c != ':') with
  | nil => exact Or.inl rfl
  | cons a r2 => exact Or.inr ⟨rest.takeWhile (fun c => c != ':'), r2, rfl⟩

/-- Claim C5 (amended): a matched line is kept only when its file path
contains `Makefile` or `makefile` as a case-sensitive substring — the
code tests substring containment over the whole path, not that the file
is named `Makefile`; a line whose path contains neither substring
contributes nothing. -/
theorem makefile_name_check_is_substring (opt : List Char) (world : List Char → GrepOutcome)
    (p rest : List Char)
    (hw : world (makefilePattern opt) = GrepOutcome.success 0 (p ++ ':' :: rest))
    (h1 : containsSub ("Makefile".toList) p = false)
    (h2 : containsSub ("makefile".toList) p = false)
    (hp1 : ':' ∉ p) (hp2 : '\n' ∉ p) (hr : '\n' ∉ rest) :
    find_makefile_objects opt world = [] := by
  unfold find_makefile_objects grepResultFiles
  simp only [hw]
  rw [if_pos trivial]
  have hnl : '\n' ∉ (p ++ ':' :: rest) := by
    intro hmem
    rcases List.mem_append.mp hmem with h | h
    · exact hp2 h
    · rcases List.mem_cons.mp h with h | h
      · exact absurd h (by decide)
      · exact hr h
  rw [pySplitChar_no_sep '\n' _ hnl]
  simp only [List.foldl_cons, List.foldl_nil]
  unfold processGrepLine
  rw [if_pos ⟨by simp, by simp⟩]
  rcases pySplitColon2_two_or_three p rest hp1 with hsp | ⟨b, r2, hsp⟩
  · rw [hsp]
  · rw [hsp]
    simp only [h1, h2]
    rw [if_neg (by simp)]

/-- Witness for the amended C5: a match inside `drivers/foo.c` (path
free of both substrings) is discarded. -/
theorem makefile_name_check_is_substring_witness :
    find_makefile_objects ("CONFIG_X".toList)
        (fun _ => GrepOutcome.success 0
          (("drivers/foo.c".toList) ++ ':' :: ("1:obj-$(CONFIG_X) += foo.o".toList))) = [] :=
  makefile_name_check_is_substring ("CONFIG_X".toList) _ ("drivers/foo.c".toList)
    ("1:obj-$(CONFIG_X) += foo.o".toList) rfl (by decide) (by decide) (by decide) (by decide)
    (by decide)

/-- Claim C5 counterexample: the pattern match inside
`Makefiles/notes.txt` — a file named `notes.txt`, not
(case-insensitively) `Makefile` — is kept, because the code only tests
substring containment of `Makefile`/`makefile` in the path. -/
theorem makefile_name_check_counterexample :
    find_makefile_objects ("CONFIG_FOO".toList)
        (fun _ => GrepOutcome.success 0
          ("Makefiles/notes.txt:1:obj-$(CONFIG_FOO) += foo.o".toList)) =
      [("Makefiles/foo.o".toList)] ∧
    specFileNamedMakefile ("Makefiles/notes.txt".toList) = false := by decide

theorem notmem_colon_line (c : Char) (path rest : List Char) (h1 : c ∉ path) (hc : c ≠ ':')
    (h2 : c ∉ rest) : c ∉ path ++ ':' :: rest := by
  intro hmem
  rcases List.mem_append.mp hmem with h | h
  · exact h1 h
  · rcases List.mem_cons.mp h with h | h
    · exact hc h
    · exact h2 h

theorem joinComps_cons_ne (a : List Char) (l : List (List Char)) (h : l ≠ []) :
    joinComps (a :: l) = a ++ '/' :: joinComps l := by
  cases l with
  | nil => exact absurd rfl h
  | cons b t => rfl

theorem parsePath_dir_file (d m : List Char) (hd1 : d ≠ []) (hd2 : d ≠ ['.'])
    (hds : '/' ∉ d) (hm1 : m ≠ []) (hm2 : m ≠ ['.']) (hms : '/' ∉ m) :
    parsePath (d ++ '/' :: m) = ⟨0, [d, m]⟩ := by
  obtain ⟨c0, d', rfl⟩ : ∃ c0 d', d = c0 :: d' := by
    cases d with
    | nil => exact absurd rfl hd1
    | cons a t => exact ⟨a, t, rfl⟩
  have hc0 : c0 ≠ '/' := fun h => hds (h ▸ List.mem_cons_self c0 d')
  have hA : isPre ['/', '/'] (c0 :: (d' ++ '/' :: m)) = false := by
    simp [isPre, stripPre, Ne.symm hc0]
  have hB : isPre ['/'] (c0 :: (d' ++ '/' :: m)) = false := by
    simp [isPre, stripPre, Ne.symm hc0]
  unfold parsePath
  have hlead : leadSlashes (c0 :: d' ++ '/' :: m) = 0 := by
    unfold leadSlashes
    rw [List.cons_append, if_neg, if_neg]
    · intro h
      rw [hB] at h
      exact absurd h (by decide)
    · intro h
      have hh := h.1
      rw [hA] at hh
      exact absurd hh (by decide)
  rw [hlead, pySplitChar_sep_split '/' (c0 :: d') m hds, pySplitChar_no_sep '/' m hms]
  simp [List.filter_cons, hd1, hd2, hm1, hm2]

theorem join_dir_normal (d o : List Char) (h : normalRelPath o) :
    (PurePath.join ⟨0, [d]⟩ o).str = d ++ '/' :: o := by
  obtain ⟨h0, hne, hj⟩ := h
  unfold PurePath.join
  rw [if_neg (by rw [h0]; decide)]
  unfold PurePath.str
  simp only [List.replicate, List.nil_append, List.singleton_append]
  rw [if_neg (by simp)]
  rw [joinComps_cons_ne d _ hne, hj]

theorem grep_single_line_files (path num content : List Char)
    (hpc : ':' ∉ path) (hnc : ':' ∉ num)
    (hpn : '\n' ∉ path) (hnn : '\n' ∉ num) (hcn : '\n' ∉ content)
    (hmk : (containsSub ("Makefile".toList) path ||
      containsSub ("makefile".toList) path) = true) :
    grepResultFiles (GrepOutcome.success 0 (path ++ ':' :: (num ++ ':' :: content))) =
      (findAllObj content).foldl (fun fs obj =>
        if (parsePath path).parent = pathDot then setInsert fs obj
        else setInsert fs (((parsePath path).parent.join obj).str)) [] := by
  show (if (0 : Int) = 0 then
      List.foldl processGrepLine [] (pySplitChar '\n' (path ++ ':' :: (num ++ ':' :: content)))
    else []) = _
  rw [if_pos rfl]
  have hnl : '\n' ∉ (path ++ ':' :: (num ++ ':' :: content)) := by
    refine notmem_colon_line _ _ _ hpn (by decide) ?_
    exact notmem_colon_line _ _ _ hnn (by decide) hcn
  rw [pySplitChar_no_sep '\n' _ hnl]
  simp only [List.foldl_cons, List.foldl_nil]
  unfold processGrepLine
  rw [if_pos ⟨by simp, by simp⟩]
  rw [pySplitColon2_parts path num content hpc hnc]
  simp only [hmk, if_true]

/-- Claim C4 (amended): on a matched line of a root-level `Makefile`
every extracted artifact reference is recorded verbatim; on a matched
line of `d/Makefile` every artifact reference in normalized relative
form (no leading slash, no empty or `.` segments) is recorded with the
`d/` directory prepended.  (An artifact reference carrying a leading
slash instead replaces the directory under POSIX path joining, which is
what the code's `Path` division does — see the counterexample.) -/
theorem artifact_path_reconciliation (opt : List Char)
    (world1 world2 : List Char → GrepOutcome) (d num content : List Char)
    (hw1 : world1 (makefilePattern opt) =
      GrepOutcome.success 0 (("Makefile".toList) ++ ':' :: (num ++ ':' :: content)))
    (hw2 : world2 (makefilePattern opt) =
      GrepOutcome.success 0 ((d ++ '/' :: ("Makefile".toList)) ++ ':' :: (num ++ ':' :: content)))
    (hd1 : d ≠ []) (hd2 : d ≠ ['.']) (hds : '/' ∉ d) (hdc : ':' ∉ d) (hdn : '\n' ∉ d)
    (hnc : ':' ∉ num) (hnn : '\n' ∉ num) (hcn : '\n' ∉ content)
    (hnorm : ∀ o ∈ findAllObj content, normalRelPath o) :
    (∀ x, x ∈ find_makefile_objects opt world1 ↔ x ∈ findAllObj content) ∧
    (∀ x, x ∈ find_makefile_objects opt world2 ↔
      x ∈ (findAllObj content).map (fun o => d ++ '/' :: o)) := by
  constructor
  · intro x
    unfold find_makefile_objects
    rw [hw1, grep_single_line_files _ _ _ (by decide) hnc (by decide) hnn hcn (by decide)]
    have hfold : ((findAllObj content).foldl (fun fs obj =>
        if (parsePath ("Makefile".toList)).parent = pathDot then setInsert fs obj
        else setInsert fs (((parsePath ("Makefile".toList)).parent.join obj).str)) []) =
        (findAllObj content).foldl (fun fs obj => setInsert fs (id obj)) [] := by
      congr 1
    rw [hfold, mem_foldl_setInsert]
    simp
  · intro x
    have hpc2 : ':' ∉ (d ++ '/' :: ("Makefile".toList)) := by
      intro hmem
      rcases List.mem_append.mp hmem with h | h
      · exact hdc h
      · rcases List.mem_cons.mp h with h | h
        · exact absurd h (by decide)
        · exact absurd h (by decide)
    have hpn2 : '\n' ∉ (d ++ '/' :: ("Makefile".toList)) := by
      intro hmem
      rcases List.mem_append.mp hmem with h | h
      · exact hdn h
      · rcases List.mem_cons.mp h with h | h
        · exact absurd h (by decide)
        · exact absurd h (by decide)
    have hmk2 : (containsSub ("Makefile".toList) (d ++ '/' :: ("Makefile".toList)) ||
        containsSub ("makefile".toList) (d ++ '/' :: ("Makefile".toList))) = true := by
      have hself := containsSub_append_self ("Makefile".toList) (d ++ ['/'])
      rw [List.append_assoc] at hself
      rw [show (['/'] ++ ("Makefile".toList)) = '/' :: ("Makefile".toList) from rfl] at hself
      rw [hself]
      rfl
    have hpp := parsePath_dir_file d ("Makefile".toList) hd1 hd2 hds
      (by decide) (by decide) (by decide)
    have hparent : (parsePath (d ++ '/' :: ("Makefile".toList))).parent = ⟨0, [d]⟩ := by
      rw [hpp]
      rfl
    have hdot2 : ¬ ((parsePath (d ++ '/' :: ("Makefile".toList))).parent = pathDot) := by
      rw [hparent]
      unfold pathDot
      intro h
      exact absurd (congrArg PurePath.comps h) (by simp)
    unfold find_makefile_objects
    rw [hw2, grep_single_line_files _ _ _ hpc2 hnc hpn2 hnn hcn hmk2]
    have hfold : ((findAllObj content).foldl (fun fs obj =>
        if (parsePath (d ++ '/' :: ("Makefile".toList))).parent = pathDot then setInsert fs obj
        else setInsert fs
          (((parsePath (d ++ '/' :: ("Makefile".toList))).parent.join obj).str)) []) =
        (findAllObj content).foldl (fun fs obj =>
          setInsert fs ((PurePath.join ⟨0, [d]⟩ obj).str)) [] := by
      congr 1
      funext fs obj
      rw [if_neg hdot2, hparent]
    rw [hfold, mem_foldl_setInsert]
    constructor
    · rintro (hx | ⟨o, ho, hx⟩)
      · simp at hx
      · refine List.mem_map.mpr ⟨o, ho, ?_⟩
        rw [join_dir_normal d o (hnorm o ho)] at hx
        exact hx
    · intro hx
      rcases List.mem_map.mp hx with ⟨o, ho, hxo⟩
      refine Or.inr ⟨o, ho, ?_⟩
      rw [join_dir_normal d o (hnorm o ho)]
      exact hxo

/-- Witness for the amended C4, at the spec's own example: the line
`obj-$(CONFIG_FOO) += foo.o` in a root `Makefile` yields `foo.o`, and in
`subdir/Makefile` yields `subdir/foo.o`. -/
theorem artifact_path_reconciliation_witness :
    ("foo.o".toList) ∈ find_makefile_objects ("CONFIG_FOO".toList)
      (fun _ => GrepOutcome.success 0
        (("Makefile".toList) ++ ':' :: (("3".toList) ++ ':' ::
          ("obj-$(CONFIG_FOO) += foo.o".toList)))) ∧
    ("subdir/foo.o".toList) ∈ find_makefile_objects ("CONFIG_FOO".toList)
      (fun _ => GrepOutcome.success 0
        ((("subdir".toList) ++ '/' :: ("Makefile".toList)) ++ ':' :: (("3".toList) ++ ':' ::
          ("obj-$(CONFIG_FOO) += foo.o".toList)))) := by
  have h := artifact_path_reconciliation ("CONFIG_FOO".toList)
    (fun _ => GrepOutcome.success 0
      (("Makefile".toList) ++ ':' :: (("3".toList) ++ ':' ::
        ("obj-$(CONFIG_FOO) += foo.o".toList))))
    (fun _ => GrepOutcome.success 0
      ((("subdir".toList) ++ '/' :: ("Makefile".toList)) ++ ':' :: (("3".toList) ++ ':' ::
        ("obj-$(CONFIG_FOO) += foo.o".toList))))
    ("subdir".toList)
    ("3".toList) ("obj-$(CONFIG_FOO) += foo.o".toList) rfl rfl (by decide) (by decide)
    (by decide) (by decide) (by decide) (by decide) (by decide) (by decide) (by decide)
  exact ⟨(h.1 _).mpr (by decide), (h.2 _).mpr (by decide)⟩

/-- Claim C4 counterexample: in `subdir/Makefile` the matched artifact
reference `/foo.o` is not prefixed with the containing directory — the
code's `Path` division treats it as anchored and the recorded artifact
is `/foo.o`, not `subdir//foo.o` (nor any string starting with
`subdir/`). -/
theorem artifact_path_reconciliation_counterexample :
    find_makefile_objects ("CONFIG_FOO".toList)
        (fun _ => GrepOutcome.success 0
          ("subdir/Makefile:1:obj-$(CONFIG_FOO) += /foo.o".toList)) =
      [("/foo.o".toList)] ∧
    (∀ y ∈ find_makefile_objects ("CONFIG_FOO".toList)
        (fun _ => GrepOutcome.success 0
          ("subdir/Makefile:1:obj-$(CONFIG_FOO) += /foo.o".toList)),
      isPre ("subdir/".toList) y = false) := by decide

theorem hasKey_append {β : Type} (k : List Char) (a b : List (List Char × β)) :
    hasKey k (a ++ b) = (hasKey k a || hasKey k b) := by
  induction a with
  | nil => simp [hasKey]
  | cons p rest ih => simp [hasKey, ih, Bool.or_assoc]

theorem hasKey_false_of_not_mem {β : Type} (k : List Char) (m : List (List Char × β))
    (h : k ∉ m.map Prod.fst) : hasKey k m = false := by
  induction m with
  | nil => rfl
  | cons p rest ih =>
    simp only [List.map_cons, List.mem_cons] at h
    push_neg at h
    have h1 : ¬ (p.1 = k) := fun hh => h.1 hh.symm
    simp [hasKey, ih h.2, h1]

theorem dictInsert_fresh {β : Type} (m : List (List Char × β)) (k : List Char) (v : β)
    (h : hasKey k m = false) : dictInsert m k v = m ++ [(k, v)] := by
  unfold dictInsert
  rw [h]
  simp

theorem analyze_foldl_eq (snapshot : List (List Char × List Char))
    (world : List Char → GrepOutcome) (acc : List (List Char × AssocRecord))
    (hfresh : ∀ p ∈ snapshot, hasKey p.1 acc = false)
    (hnodup : (snapshot.map Prod.fst).Nodup) :
    snapshot.foldl (fun results p =>
        dictInsert results p.1 ⟨p.2, pySorted (find_makefile_objects p.1 world), false⟩) acc =
      acc ++ snapshot.map
        (fun p => (p.1, ⟨p.2, pySorted (find_makefile_objects p.1 world), false⟩)) := by
  induction snapshot generalizing acc with
  | nil => simp
  | cons p rest ih =>
    rw [List.foldl_cons, dictInsert_fresh _ _ _ (hfresh p (List.mem_cons_self p rest))]
    simp only [List.map_cons] at hnodup
    have hnd := List.nodup_cons.mp hnodup
    rw [ih]
    · simp
    · intro q hq
      rw [hasKey_append, hfresh q (List.mem_cons_of_mem p hq)]
      have hne : q.1 ≠ p.1 := by
        intro he
        exact hnd.1 (he ▸ List.mem_map.mpr ⟨q, hq, rfl⟩)
      have hne2 : ¬ (p.1 = q.1) := fun hh => hne hh.symm
      simp [hasKey, hne2]
    · exact hnd.2

theorem analyze_eq_map (snapshot : List (List Char × List Char))
    (world : List Char → GrepOutcome) (hnodup : (snapshot.map Prod.fst).Nodup) :
    analyze_configuration snapshot world =
      snapshot.map
        (fun p => (p.1, ⟨p.2, pySorted (find_makefile_objects p.1 world), false⟩)) := by
  unfold analyze_configuration
  rw [analyze_foldl_eq snapshot world [] (fun p _ => rfl) hnodup]
  rfl

theorem alookup_keyed_map (f : List Char × List Char → AssocRecord)
    (snapshot : List (List Char × List Char)) (opt val : List Char)
    (hnodup : (snapshot.map Prod.fst).Nodup) (hmem : (opt, val) ∈ snapshot) :
    alookup opt (snapshot.map (fun p => (p.1, f p))) = some (f (opt, val)) := by
  induction snapshot with
  | nil => simp at hmem
  | cons p rest ih =>
    simp only [List.map_cons] at hnodup
    have hnd := List.nodup_cons.mp hnodup
    rw [List.map_cons]
    by_cases hp : p.1 = opt
    · rcases List.mem_cons.mp hmem with he | hr
      · rw [← he]
        simp [alookup]
      · exfalso
        exact hnd.1 (hp ▸ List.mem_map.mpr ⟨(opt, val), hr, rfl⟩)
    · have hr : (opt, val) ∈ rest := by
        rcases List.mem_cons.mp hmem with he | hr
        · exact absurd (by rw [← he]) hp
        · exact hr
      simp only [alookup]
      rw [if_neg hp]
      exact ih hnd.2 hr

/-- Claim C2: the aggregation produces exactly one record per snapshot
option — its key list (hence its key set) equals the snapshot's key
list — and every record carries the snapshot value, the sorted scan
result, and `tracked = false`. -/
theorem analyze_one_record_per_option (snapshot : List (List Char × List Char))
    (world : List Char → GrepOutcome)
    (hnodup : (snapshot.map Prod.fst).Nodup) :
    ((analyze_configuration snapshot world).map Prod.fst = snapshot.map Prod.fst) ∧
    ∀ opt val, (opt, val) ∈ snapshot →
      alookup opt (analyze_configuration snapshot world) =
        some ⟨val, pySorted (find_makefile_objects opt world), false⟩ := by
  rw [analyze_eq_map snapshot world hnodup]
  constructor
  · rw [List.map_map]
    rfl
  · intro opt val hmem
    exact alookup_keyed_map
      (fun p => ⟨p.2, pySorted (find_makefile_objects p.1 world), false⟩)
      snapshot opt val hnodup hmem

/-- Witness for C2 on a two-option snapshot. -/
theorem analyze_one_record_per_option_witness :
    ((analyze_configuration
        [(("CONFIG_A".toList), ['y']), (("CONFIG_B".toList), ['m'])]
        (fun _ => GrepOutcome.fail)).map Prod.fst =
      [(("CONFIG_A".toList), ['y']), (("CONFIG_B".toList), ['m'])].map Prod.fst) ∧
    alookup ("CONFIG_A".toList)
        (analyze_configuration
          [(("CONFIG_A".toList), ['y']), (("CONFIG_B".toList), ['m'])]
          (fun _ => GrepOutcome.fail)) =
      some ⟨['y'],
        pySorted (find_makefile_objects ("CONFIG_A".toList) (fun _ => GrepOutcome.fail)),
        false⟩ :=
  ⟨(analyze_one_record_per_option _ _ (by decide)).1,
   (analyze_one_record_per_option _ _ (by decide)).2 _ _ (by decide)⟩

theorem makefilePattern_inj (a b : List Char) (h : makefilePattern a = makefilePattern b) :
    a = b :=
  List.append_cancel_left h

/-- Claim C3: a failing per-option search (tool absent, timeout,
invocation error) triggers the warning branch and yields the empty
artifact set for that option; the aggregation still produces a record
for every option (the run is never aborted and the report stays
complete), and the record of every other option is exactly what it is
under a world that agrees on all other patterns. -/
theorem scanner_failure_isolated (snapshot : List (List Char × List Char))
    (world world2 : List Char → GrepOutcome) (opt : List Char)
    (hnodup : (snapshot.map Prod.fst).Nodup)
    (hfail : world2 (makefilePattern opt) = GrepOutcome.fail)
    (hsame : ∀ q, q ≠ makefilePattern opt → world2 q = world q) :
    find_makefile_objects opt world2 = [] ∧
    searchWarned (world2 (makefilePattern opt)) = true ∧
    ((analyze_configuration snapshot world2).map Prod.fst = snapshot.map Prod.fst) ∧
    (∀ o val, (o, val) ∈ snapshot → o ≠ opt →
      alookup o (analyze_configuration snapshot world2) =
        alookup o (analyze_configuration snapshot world)) := by
  refine ⟨?_, ?_, ?_, ?_⟩
  · unfold find_makefile_objects
    rw [hfail]
    rfl
  · rw [hfail]
    rfl
  · rw [analyze_eq_map snapshot world2 hnodup, List.map_map]
    rfl
  · intro o val hmem ho
    have hfind : find_makefile_objects o world2 = find_makefile_objects o world := by
      unfold find_makefile_objects
      rw [hsame (makefilePattern o) (fun hq => ho (makefilePattern_inj o opt hq))]
    rw [analyze_eq_map snapshot world2 hnodup, analyze_eq_map snapshot world hnodup]
    rw [alookup_keyed_map (fun p => ⟨p.2, pySorted (find_makefile_objects p.1 world2), false⟩)
        snapshot o val hnodup hmem,
      alookup_keyed_map (fun p => ⟨p.2, pySorted (find_makefile_objects p.1 world), false⟩)
        snapshot o val hnodup hmem]
    rw [hfind]

/-- Witness for C3: the search for `CONFIG_B` times out while
`CONFIG_A` still gets its record. -/
theorem scanner_failure_isolated_witness :
    find_makefile_objects ("CONFIG_B".toList)
      (fun q => if q = makefilePattern ("CONFIG_B".toList) then GrepOutcome.fail
        else GrepOutcome.success 0 ("Makefile:1:obj-$(CONFIG_A) += a.o".toList)) = [] ∧
    searchWarned
      ((fun q => if q = makefilePattern ("CONFIG_B".toList) then GrepOutcome.fail
        else GrepOutcome.success 0 ("Makefile:1:obj-$(CONFIG_A) += a.o".toList))
        (makefilePattern ("CONFIG_B".toList))) = true ∧
    ((analyze_configuration [(("CONFIG_A".toList), ['y']), (("CONFIG_B".toList), ['y'])]
      (fun q => if q = makefilePattern ("CONFIG_B".toList) then GrepOutcome.fail
        else GrepOutcome.success 0 ("Makefile:1:obj-$(CONFIG_A) += a.o".toList))).map Prod.fst =
      [(("CONFIG_A".toList), ['y']), (("CONFIG_B".toList), ['y'])].map Prod.fst) ∧
    alookup ("CONFIG_A".toList)
        (analyze_configuration [(("CONFIG_A".toList), ['y']), (("CONFIG_B".toList), ['y'])]
          (fun q => if q = makefilePattern ("CONFIG_B".toList) then GrepOutcome.fail
            else GrepOutcome.success 0 ("Makefile:1:obj-$(CONFIG_A) += a.o".toList))) =
      alookup ("CONFIG_A".toList)
        (analyze_configuration [(("CONFIG_A".toList), ['y']), (("CONFIG_B".toList), ['y'])]
          (fun _ => GrepOutcome.success 0 ("Makefile:1:obj-$(CONFIG_A) += a.o".toList))) := by
  have h := scanner_failure_isolated
    [(("CONFIG_A".toList), ['y']), (("CONFIG_B".toList), ['y'])]
    (fun _ => GrepOutcome.success 0 ("Makefile:1:obj-$(CONFIG_A) += a.o".toList))
    (fun q => if q = makefilePattern ("CONFIG_B".toList) then GrepOutcome.fail
      else GrepOutcome.success 0 ("Makefile:1:obj-$(CONFIG_A) += a.o".toList))
    ("CONFIG_B".toList) (by decide) (by simp) (fun q hq => if_neg hq)
  exact ⟨h.1, h.2.1, h.2.2.1, h.2.2.2 ("CONFIG_A".toList) (['y']) (by decide) (by decide)⟩

theorem lexLe_total (a b : List Char) : lexLe a b = true ∨ lexLe b a = true := by
  induction a generalizing b with
  | nil => exact Or.inl rfl
  | cons x xs ih =>
    cases b with
    | nil => exact Or.inr rfl
    | cons y ys =>
      by_cases h1 : x < y
      · exact Or.inl (by simp [lexLe, h1])
      · by_cases h2 : y < x
        · exact Or.inr (by simp [lexLe, h2])
        · rcases ih ys with h | h
          · exact Or.inl (by simp [lexLe, h1, h2, h])
          · exact Or.inr (by simp [lexLe, h1, h2, h])

theorem lexLe_trans (a b c : List Char) (h1 : lexLe a b = true) (h2 : lexLe b c = true) :
    lexLe a c = true := by
  induction a generalizing b c with
  | nil => rfl
  | cons x xs ih =>
    cases b with
    | nil => simp [lexLe] at h1
    | cons y ys =>
      cases c with
      | nil => simp [lexLe] at h2
      | cons z zs =>
        simp only [lexLe] at h1 h2 ⊢
        by_cases hxy : x < y
        · by_cases hyz : y < z
          · rw [if_pos (lt_trans hxy hyz)]
          · by_cases hzy : z < y
            · rw [if_neg hyz, if_pos hzy] at h2
              exact absurd h2 (by decide)
            · have he : y = z := le_antisymm (not_lt.mp hzy) (not_lt.mp hyz)
              subst he
              rw [if_pos hxy]
        · by_cases hyx : y < x
          · rw [if_neg hxy, if_pos hyx] at h1
            exact absurd h1 (by decide)
          · have he : x = y := le_antisymm (not_lt.mp hyx) (not_lt.mp hxy)
            subst he
            rw [if_neg (lt_irrefl x), if_neg (lt_irrefl x)] at h1
            by_cases hxz : x < z
            · rw [if_pos hxz]
            · by_cases hzx : z < x
              · rw [if_neg hxz, if_pos hzx] at h2
                exact absurd h2 (by decide)
              · have he2 : x = z := le_antisymm (not_lt.mp hzx) (not_lt.mp hxz)
                subst he2
                rw [if_neg (lt_irrefl x), if_neg (lt_irrefl x)] at h2
                rw [if_neg (lt_irrefl x), if_neg (lt_irrefl x)]
                exact ih ys zs h1 h2

theorem splitStrGo_cons_nomatch (sep : List Char) (c : Char) (rest cur : List Char)
    (h : isPre sep (c :: rest) = false) :
    splitStrGo sep (c :: rest) 0 cur = splitStrGo sep rest 0 (c :: cur) := by
  show (if isPre sep (c :: rest) = true then
      cur.reverse :: splitStrGo sep rest (sep.length - 1) []
    else splitStrGo sep rest 0 (c :: cur)) = _
  rw [if_neg (by simp [h])]

theorem splitStrGo_cons_match (sep : List Char) (c : Char) (rest cur : List Char)
    (h : isPre sep (c :: rest) = true) :
    splitStrGo sep (c :: rest) 0 cur =
      cur.reverse :: splitStrGo sep rest (sep.length - 1) [] := by
  show (if isPre sep (c :: rest) = true then
      cur.reverse :: splitStrGo sep rest (sep.length - 1) []
    else splitStrGo sep rest 0 (c :: cur)) = _
  rw [if_pos h]

theorem splitStrGo_no_occ (sep l cur : List Char) (h : containsSub sep l = false) :
    splitStrGo sep l 0 cur = [cur.reverse ++ l] := by
  induction l generalizing cur with
  | nil => simp [splitStrGo]
  | cons c rest ih =>
    unfold containsSub at h
    rw [Bool.or_eq_false_iff] at h
    rw [splitStrGo_cons_nomatch sep c rest cur h.1, ih (c :: cur) h.2]
    simp

theorem splitStrGo_piece (f R cur : List Char) (hf : containsSub sepSC f = false) :
    splitStrGo sepSC (f ++ (sepSC ++ R)) 0 cur =
      (cur.reverse ++ f) :: splitStrGo sepSC R 0 [] := by
  induction f generalizing cur with
  | nil =>
    rw [List.nil_append, show sepSC ++ R = ';' :: ' ' :: R from rfl]
    rw [splitStrGo_cons_match sepSC ';' (' ' :: R) cur (by simp [isPre, sepSC, stripPre])]
    show cur.reverse :: splitStrGo sepSC R 0 [] = (cur.reverse ++ []) :: splitStrGo sepSC R 0 []
    simp
  | cons ch f2 ih =>
    have hor := hf
    unfold containsSub at hor
    rw [Bool.or_eq_false_iff] at hor
    have hpre : isPre sepSC (ch :: (f2 ++ (sepSC ++ R))) = false := by
      by_cases hch : (';' : Char) = ch
      · cases f2 with
        | nil => simp [isPre, stripPre, sepSC, hch]
        | cons e f3 =>
          have h1 := hor.1
          by_cases he : (' ' : Char) = e
          · exfalso
            subst hch
            subst he
            simp [isPre, stripPre, sepSC] at h1
          · simp [isPre, stripPre, sepSC, hch, he]
      · simp [isPre, stripPre, sepSC, hch]
    rw [List.cons_append, splitStrGo_cons_nomatch sepSC ch _ cur hpre, ih (ch :: cur) hor.2]
    simp

theorem splitStrGo_join (files : List (List Char)) (hne : files ≠ [])
    (hsep : ∀ f ∈ files, containsSub sepSC f = false) :
    splitStrGo sepSC (joinSep files) 0 [] = files := by
  induction files with
  | nil => exact absurd rfl hne
  | cons f rest ih =>
    cases rest with
    | nil =>
      rw [show joinSep [f] = f from rfl,
        splitStrGo_no_occ sepSC f [] (hsep f (List.mem_cons_self f []))]
      simp
    | cons g t =>
      rw [show joinSep (f :: g :: t) = f ++ (sepSC ++ joinSep (g :: t)) from rfl,
        splitStrGo_piece f (joinSep (g :: t)) [] (hsep f (List.mem_cons_self f (g :: t)))]
      simp only [List.reverse_nil, List.nil_append]
      congr 1
      exact ih (by simp) (fun q hq => hsep q (List.mem_cons_of_mem f hq))

/-- Claim C6 (amended): the emitted report is a header row followed by
exactly one data row per option; the data rows are sorted by option
name ascending; every Track Status cell is the fixed literal `NO`; the
Object Files cell is the record's artifact list joined with the
separator, empty string when there are no artifacts; and splitting the
cell on the separator recovers the artifact list whenever that list is
non-empty and no artifact contains the separator.  (For an option
without artifacts the cell is the empty string, and splitting the empty
string yields the one-element list containing the empty string, not the
empty artifact list — see the counterexample.) -/
theorem report_rows_sorted_and_joined (results : List (List Char × AssocRecord))
    (_hnodup : (results.map Prod.fst).Nodup) :
    (export_to_csv results).length = results.length + 1 ∧
    List.Sorted (fun a b => lexLe a b = true)
      (((export_to_csv results).tail).map (fun row => row.getD 1 [])) ∧
    (∀ row ∈ (export_to_csv results).tail, row.getD 0 [] = ("NO".toList)) ∧
    (∀ opt rec, (opt, rec) ∈ results →
      [("NO".toList), opt, if rec.files ≠ [] then joinSep rec.files else []] ∈
        (export_to_csv results).tail) ∧
    (∀ files : List (List Char), files ≠ [] →
      (∀ f ∈ files, containsSub sepSC f = false) →
      pySplitStr sepSC (joinSep files) = files) := by
  haveI hTot : IsTotal (List Char × AssocRecord) (fun a b => lexLe a.1 b.1 = true) :=
    ⟨fun a b => lexLe_total a.1 b.1⟩
  haveI hTrans : IsTrans (List Char × AssocRecord) (fun a b => lexLe a.1 b.1 = true) :=
    ⟨fun a b c => lexLe_trans a.1 b.1 c.1⟩
  have htail : (export_to_csv results).tail =
      (List.insertionSort (fun a b => lexLe a.1 b.1 = true) results).map
        (fun p => [("NO".toList), p.1,
          if p.2.files ≠ [] then joinSep p.2.files else []]) := rfl
  refine ⟨?_, ?_, ?_, ?_, ?_⟩
  · show ((List.insertionSort (fun a b => lexLe a.1 b.1 = true) results).map _).length + 1 =
      results.length + 1
    rw [List.length_map, (List.perm_insertionSort (fun a b => lexLe a.1 b.1 = true)
      results).length_eq]
  · rw [htail, List.map_map]
    have hsorted := List.sorted_insertionSort (fun a b => lexLe a.1 b.1 = true) results
    exact List.Pairwise.map _ (fun a b hab => hab) hsorted
  · intro row hrow
    rw [htail] at hrow
    rcases List.mem_map.mp hrow with ⟨p, _, hp⟩
    rw [← hp]
    rfl
  · intro opt rec hmem
    rw [htail]
    refine List.mem_map.mpr ⟨(opt, rec), ?_, rfl⟩
    exact (List.perm_insertionSort (fun a b => lexLe a.1 b.1 = true) results).mem_iff.mpr hmem
  · intro files hne hsep
    unfold pySplitStr
    rw [if_neg (by simp [sepSC])]
    exact splitStrGo_join files hne hsep

/-- Witness for the amended C6 on a two-option result, including the
spec's own round-trip example `a.o; b.o`. -/
theorem report_rows_sorted_and_joined_witness :
    (export_to_csv [(("CONFIG_B".toList), ⟨['y'], [("a.o".toList), ("b.o".toList)], false⟩),
        (("CONFIG_A".toList), ⟨['m'], [], false⟩)]).length = 2 + 1 ∧
    List.Sorted (fun a b => lexLe a b = true)
      (((export_to_csv [(("CONFIG_B".toList), ⟨['y'], [("a.o".toList), ("b.o".toList)], false⟩),
        (("CONFIG_A".toList), ⟨['m'], [], false⟩)]).tail).map (fun row => row.getD 1 [])) ∧
    [("NO".toList), ("CONFIG_B".toList),
        if [("a.o".toList), ("b.o".toList)] ≠ [] then
          joinSep [("a.o".toList), ("b.o".toList)] else []] ∈
      (export_to_csv [(("CONFIG_B".toList), ⟨['y'], [("a.o".toList), ("b.o".toList)], false⟩),
        (("CONFIG_A".toList), ⟨['m'], [], false⟩)]).tail ∧
    pySplitStr sepSC (joinSep [("a.o".toList), ("b.o".toList)]) =
      [("a.o".toList), ("b.o".toList)] := by
  have h := report_rows_sorted_and_joined
    [(("CONFIG_B".toList), ⟨['y'], [("a.o".toList), ("b.o".toList)], false⟩),
     (("CONFIG_A".toList), ⟨['m'], [], false⟩)] (by decide)
  exact ⟨h.1, h.2.1,
    h.2.2.2.1 ("CONFIG_B".toList) ⟨['y'], [("a.o".toList), ("b.o".toList)], false⟩ (by decide),
    h.2.2.2.2 [("a.o".toList), ("b.o".toList)] (by decide) (by decide)⟩

/-- Claim C6 counterexample: for an option with no artifacts the
emitted cell is the empty string, and Python splits the empty string on
the separator into `[""]`, which is not the original empty artifact
list — the stated round trip fails there. -/
theorem report_roundtrip_counterexample :
    export_to_csv [(("CONFIG_X".toList), ⟨['y'], [], false⟩)] =
      [[("Track Status".toList), ("CONFIG_OPTION".toList), ("Object Files".toList)],
       [("NO".toList), ("CONFIG_X".toList), []]] ∧
    pySplitStr sepSC [] = [[]] ∧
    ([[]] : List (List Char)) ≠ [] := by decide

theorem mem_kconfigCollect (acc : List (List Char)) (stdout : List Char) (x : List Char) :
    x ∈ kconfigCollect acc stdout ↔ x ∈ acc ∨
      ∃ file ∈ pySplitChar '\n' (pyStrip stdout),
        file ≠ [] ∧ isPre (".git".toList) file = false ∧ x = pyLStripDotSlash file := by
  unfold kconfigCollect
  generalize pySplitChar '\n' (pyStrip stdout) = lines
  induction lines generalizing acc with
  | nil => simp
  | cons f rest ih =>
    rw [List.foldl_cons]
    by_cases hc : f ≠ [] ∧ isPre (".git".toList) f = false
    · rw [if_pos hc, ih]
      constructor
      · rintro (hx | ⟨g, hg, hgp⟩)
        · rcases (mem_setInsert acc (pyLStripDotSlash f) x).mp hx with h2 | h2
          · exact Or.inl h2
          · exact Or.inr ⟨f, List.mem_cons_self f rest, hc.1, hc.2, h2⟩
        · exact Or.inr ⟨g, List.mem_cons_of_mem f hg, hgp⟩
      · rintro (hx | ⟨g, hg, hg1, hg2, hg3⟩)
        · exact Or.inl ((mem_setInsert acc (pyLStripDotSlash f) x).mpr (Or.inl hx))
        · rcases List.mem_cons.mp hg with he | hr
          · subst he
            exact Or.inl ((mem_setInsert acc (pyLStripDotSlash g) x).mpr (Or.inr hg3))
          · exact Or.inr ⟨g, hr, hg1, hg2, hg3⟩
    · rw [if_neg hc, ih]
      constructor
      · rintro (hx | ⟨g, hg, hgp⟩)
        · exact Or.inl hx
        · exact Or.inr ⟨g, List.mem_cons_of_mem f hg, hgp⟩
      · rintro (hx | ⟨g, hg, hg1, hg2, hg3⟩)
        · exact Or.inl hx
        · rcases List.mem_cons.mp hg with he | hr
          · exact absurd ⟨(he ▸ hg1), (he ▸ hg2)⟩ hc
          · exact Or.inr ⟨g, hr, hg1, hg2, hg3⟩

theorem mem_kconfigLoop (penv : List Char → GrepOutcome) (ps : List (List Char))
    (acc : List (List Char)) (x : List Char)
    (hok : ∀ p ∈ ps, penv p ≠ GrepOutcome.fail) :
    x ∈ kconfigLoop penv ps acc ↔
      x ∈ acc ∨ ∃ p ∈ ps, ∃ stdout, penv p = GrepOutcome.success 0 stdout ∧
        ∃ file ∈ pySplitChar '\n' (pyStrip stdout),
          file ≠ [] ∧ isPre (".git".toList) file = false ∧ x = pyLStripDotSlash file := by
  induction ps generalizing acc with
  | nil => simp [kconfigLoop]
  | cons p ps ih =>
    cases hp : penv p with
    | fail => exact absurd hp (hok p (List.mem_cons_self p ps))
    | success rc stdout =>
      have heq : kconfigLoop penv (p :: ps) acc =
          if rc = 0 then kconfigLoop penv ps (kconfigCollect acc stdout)
          else kconfigLoop penv ps acc := by
        show (match penv p with
          | GrepOutcome.fail => acc
          | GrepOutcome.success rc stdout =>
            if rc = 0 then kconfigLoop penv ps (kconfigCollect acc stdout)
            else kconfigLoop penv ps acc) = _
        rw [hp]
      rw [heq]
      have hok2 : ∀ q ∈ ps, penv q ≠ GrepOutcome.fail :=
        fun q hq => hok q (List.mem_cons_of_mem p hq)
      by_cases hrc : rc = 0
      · subst hrc
        rw [if_pos rfl, ih _ hok2, mem_kconfigCollect]
        constructor
        · rintro ((hx | ⟨file, hf⟩) | ⟨q, hq, hrest⟩)
          · exact Or.inl hx
          · exact Or.inr ⟨p, List.mem_cons_self p ps, stdout, hp, file, hf⟩
          · exact Or.inr ⟨q, List.mem_cons_of_mem p hq, hrest⟩
        · rintro (hx | ⟨q, hq, stdout2, hq2, hfile⟩)
          · exact Or.inl (Or.inl hx)
          · rcases List.mem_cons.mp hq with he | hr
            · subst he
              rw [hp] at hq2
              have hs : stdout2 = stdout := by
                injection hq2 with h1 h2
                exact h2.symm
              subst hs
              exact Or.inl (Or.inr hfile)
            · exact Or.inr ⟨q, hr, stdout2, hq2, hfile⟩
      · rw [if_neg hrc, ih _ hok2]
        constructor
        · rintro (hx | ⟨q, hq, hrest⟩)
          · exact Or.inl hx
          · exact Or.inr ⟨q, List.mem_cons_of_mem p hq, hrest⟩
        · rintro (hx | ⟨q, hq, stdout2, hq2, hfile⟩)
          · exact Or.inl hx
          · rcases List.mem_cons.mp hq with he | hr
            · exfalso
              subst he
              rw [hp] at hq2
              injection hq2 with h1 h2
              exact hrc h1
            · exact Or.inr ⟨q, hr, stdout2, hq2, hfile⟩

/-- Claim C8 (amended): the option-declaration scan searches exactly
the four idioms `config <base>`, `select <base>`, `depends on <full>`,
and the bare full name, where `<base>` is the option name with every
occurrence of `CONFIG_` removed (`str.replace` — equal to stripping the
required prefix whenever `CONFIG_` occurs only as the prefix); each
pattern is searched independently and the results are unioned; when no
invocation raises, a path is returned exactly when some pattern's
search succeeded with return code 0 and printed it as a non-empty
stdout line not starting with `.git`, the returned form being the line
with leading `.` and `/` characters stripped. -/
theorem kconfig_patterns_and_union (opt : List Char) (penv : List Char → GrepOutcome)
    (hok : ∀ p ∈ kconfigPatterns opt, penv p ≠ GrepOutcome.fail) (x : List Char) :
    x ∈ kconfig_analysis opt penv ↔
      ∃ p ∈ kconfigPatterns opt, ∃ stdout,
        penv p = GrepOutcome.success 0 stdout ∧
        ∃ file ∈ pySplitChar '\n' (pyStrip stdout),
          file ≠ [] ∧ isPre (".git".toList) file = false ∧ x = pyLStripDotSlash file := by
  unfold kconfig_analysis
  rw [mem_kconfigLoop penv (kconfigPatterns opt) [] x hok]
  simp

/-- Witness for the amended C8: a world answering the bare-name pattern
for `CONFIG_NET` with one Kconfig path. -/
theorem kconfig_patterns_and_union_witness :
    ("drivers/Kconfig".toList) ∈ kconfig_analysis ("CONFIG_NET".toList)
        (fun q => if q = ("CONFIG_NET".toList) then
          GrepOutcome.success 0 ("./drivers/Kconfig\n".toList)
          else GrepOutcome.success 1 []) ↔
      ∃ p ∈ kconfigPatterns ("CONFIG_NET".toList), ∃ stdout,
        (fun q => if q = ("CONFIG_NET".toList) then
          GrepOutcome.success 0 ("./drivers/Kconfig\n".toList)
          else GrepOutcome.success 1 []) p = GrepOutcome.success 0 stdout ∧
        ∃ file ∈ pySplitChar '\n' (pyStrip stdout),
          file ≠ [] ∧ isPre (".git".toList) file = false ∧
          ("drivers/Kconfig".toList) = pyLStripDotSlash file :=
  kconfig_patterns_and_union ("CONFIG_NET".toList)
    (fun q => if q = ("CONFIG_NET".toList) then
      GrepOutcome.success 0 ("./drivers/Kconfig\n".toList)
      else GrepOutcome.success 1 []) (by decide) ("drivers/Kconfig".toList)

/-- Claim C8 counterexample: for the option `CONFIG_FOO_CONFIG_BAR` the
code's `replace`-based base name is `FOO_BAR`, not the prefix-stripped
`FOO_CONFIG_BAR` the claim describes; the searched pattern lists
differ, and against a world that answers only the prefix-stripped
declaration idiom `config FOO_CONFIG_BAR` the code's scan returns
nothing while a scan over the claim's patterns would return the file. -/
theorem kconfig_base_name_counterexample :
    kconfigPatterns ("CONFIG_FOO_CONFIG_BAR".toList) ≠
      specDeclPatterns ("CONFIG_FOO_CONFIG_BAR".toList) ∧
    kconfig_analysis ("CONFIG_FOO_CONFIG_BAR".toList)
        (fun q => if q = ("config FOO_CONFIG_BAR".toList) then
          GrepOutcome.success 0 ("./drivers/Kconfig".toList)
          else GrepOutcome.success 1 []) = [] ∧
    kconfigLoop
        (fun q => if q = ("config FOO_CONFIG_BAR".toList) then
          GrepOutcome.success 0 ("./drivers/Kconfig".toList)
          else GrepOutcome.success 1 [])
        (specDeclPatterns ("CONFIG_FOO_CONFIG_BAR".toList)) [] =
      [("drivers/Kconfig".toList)] := by decide

theorem mem_foldl_setInsert_guard (g : List Char → List Char) (fsE : List Char → Bool)
    (objs : List (List Char)) (init : List (List Char)) (x : List Char)
    (hx : x ∈ objs.foldl (fun fs b => if fsE (g b) then setInsert fs (g b) else fs) init) :
    x ∈ init ∨ fsE x = true := by
  induction objs generalizing init with
  | nil => exact Or.inl hx
  | cons b rest ih =>
    rw [List.foldl_cons] at hx
    rcases ih _ hx with h | h
    · by_cases hg : fsE (g b) = true
      · rw [if_pos hg] at h
        rcases (mem_setInsert init (g b) x).mp h with h2 | h2
        · exact Or.inl h2
        · exact Or.inr (h2 ▸ hg)
      · rw [if_neg hg] at h
        exact Or.inl h
    · exact Or.inr h

/-- Claim C9: every path returned by the fallback filesystem-walk scan
is either the (lstripped) build-description file path of a matched
line, or a compiled-unit-derived `.c` path that passed the on-disk
existence check — no extracted compiled-unit reference is returned
without the oracle having confirmed the corresponding source file
exists. -/
theorem fallback_scan_checks_existence (rc : Int) (stdout : List Char)
    (fsE : List Char → Bool) (x : List Char)
    (hx : x ∈ makefile_analysis (GrepOutcome.success rc stdout) fsE) :
    (∃ line ∈ pySplitChar '\n' stdout,
      x = pyLStripDotSlash (line.takeWhile (fun c => c != ':'))) ∨ fsE x = true := by
  have heq : makefile_analysis (GrepOutcome.success rc stdout) fsE =
      if rc = 0 then (pySplitChar '\n' stdout).foldl (makefileLineStep fsE) []
      else [] := rfl
  rw [heq] at hx
  by_cases hrc : rc = 0
  case neg =>
    rw [if_neg hrc] at hx
    simp at hx
  case pos =>
    subst hrc
    rw [if_pos rfl] at hx
    generalize hlines : pySplitChar '\n' stdout = lines at hx ⊢
    clear hlines
    suffices h : ∀ (acc : List (List Char)), x ∈ lines.foldl _ acc →
        x ∈ acc ∨ (∃ line ∈ lines,
          x = pyLStripDotSlash (line.takeWhile (fun c => c != ':'))) ∨ fsE x = true by
      rcases h [] hx with habs | hgood
      · simp at habs
      · exact hgood
    intro acc hacc
    clear hx
    induction lines generalizing acc with
    | nil => exact Or.inl hacc
    | cons line rest ih =>
      rw [List.foldl_cons] at hacc
      rcases ih _ hacc with hstep | hrest
      · unfold makefileLineStep at hstep
        by_cases hcond : line ≠ [] ∧ ':' ∈ line
        · rw [if_pos hcond] at hstep
          rcases mem_foldl_setInsert_guard _ fsE _ _ x hstep with hini | hfs
          · rcases (mem_setInsert acc _ x).mp hini with h2 | h2
            · exact Or.inl h2
            · exact Or.inr (Or.inl ⟨line, List.mem_cons_self line rest, h2⟩)
          · exact Or.inr (Or.inr hfs)
        · rw [if_neg hcond] at hstep
          exact Or.inl hstep
      · rcases hrest with ⟨l2, hl2, he⟩ | hfs
        · exact Or.inr (Or.inl ⟨l2, List.mem_cons_of_mem line hl2, he⟩)
        · exact Or.inr (Or.inr hfs)

/-- Witness for C9: the derived path `net/dhcp.c` is returned and did
pass the existence oracle. -/
theorem fallback_scan_checks_existence_witness :
    (∃ line ∈ pySplitChar '\n' ("./net/Makefile:obj-y += dhcp.o".toList),
      ("net/dhcp.c".toList) = pyLStripDotSlash (line.takeWhile (fun c => c != ':'))) ∨
    (fun p => decide (p = ("net/dhcp.c".toList))) ("net/dhcp.c".toList) = true :=
  fallback_scan_checks_existence 0 ("./net/Makefile:obj-y += dhcp.o".toList)
    (fun p => decide (p = ("net/dhcp.c".toList))) ("net/dhcp.c".toList) (by decide)
